import Mathlib

/-!
Verification of the circle stream library (github.com/berquerant/circle).

The library is a lazily evaluated, pull-based sequence pipeline.  This file
embeds the parts of the source relevant to the stated claims:

* `iterator.Next` (iterator.go) — the sticky pull state machine over a
  generator closure;
* `mapExecutor.Execute` / `filterExecutor.Execute` (executor.go) — the
  generator closures of the map and filter stages;
* `StreamNodeIterator.Next` (node.go) — stage-id error tagging;
* `NewAggregateExecutor` / `aggregateExecutor` (executor.go) — fold
  direction selection, `foldr` and `foldl`;
* the adapter `Apply` methods (function.go, cfunction.go) — panic recovery
  at the apply boundary;
* `newIteratorFunc` and its helpers (iterator.go) — iterator construction
  from arbitrary Go values.

A Go generator closure (`IteratorFunc`) takes no argument, so the sequence
of results of its successive calls is a fixed sequence; we model a
generator by that sequence, `Nat → Res α` (the n-th call returns index n),
or, for closures that consume an upstream iterator, by a recursive function
over the list of successive upstream results.
-/

namespace Circle

/-- Go error model: `nil` is absence (we use `Except`), `ErrEOI` is the
end-of-input sentinel, any other error is carried as its rendered
message. -/
inductive GoErr where
  | eoi
  | err (msg : String)
deriving DecidableEq, Repr

/-- Result of one `Next` / generator call: a value or an error. -/
abbrev Res (α : Type) := Except GoErr α

/-- Boolean success test on a call result. -/
def resOk : Res α → Bool
  | .ok _ => true
  | .error _ => false

/-- State of the `iterator` struct of iterator.go: the sticky `isEOI` flag
plus the number of generator calls made so far (the generator closure's
own progress). -/
structure IterState where
  isEOI : Bool
  pos : Nat
deriving DecidableEq, Repr

/-- Initial state built by `newIterator`. -/
def initIterState : IterState := ⟨false, 0⟩

/-- One call of `iterator.Next` (iterator.go lines 71-81): if `isEOI`
return `ErrEOI`; otherwise call the generator, and on any error set
`isEOI` before surfacing the error. -/
def iterNext (F : Nat → Res α) (s : IterState) : IterState × Res α :=
  if s.isEOI then (s, .error .eoi)
  else
    match F s.pos with
    | .error e => (⟨true, s.pos + 1⟩, .error e)
    | .ok v => (⟨false, s.pos + 1⟩, .ok v)

/-- State after n calls of `Next` on a fresh iterator over generator F. -/
def iterRunState (F : Nat → Res α) : Nat → IterState
  | 0 => initIterState
  | n + 1 => (iterNext F (iterRunState F n)).1

/-- Result of the (n+1)-th call of `Next` on a fresh iterator over F. -/
def iterResult (F : Nat → Res α) (n : Nat) : Res α :=
  (iterNext F (iterRunState F n)).2

/-- All of the first n generator results are successful values. -/
def allOk (F : Nat → Res α) (n : Nat) : Bool :=
  (List.range n).all fun k => resOk (F k)

/-- Closed form of the call-result sequence of an iterator built by
`newIterator` over generator F: results pass through until the first
terminal signal, which is surfaced once; afterwards everything is EOI. -/
def stickyBeh (F : Nat → Res α) (n : Nat) : Res α :=
  if allOk F n then F n else .error .eoi

theorem allOk_zero (F : Nat → Res α) : allOk F 0 = true := rfl

theorem allOk_succ (F : Nat → Res α) (n : Nat) :
    allOk F (n + 1) = (allOk F n && resOk (F n)) := by
  simp [allOk, List.range_succ]

theorem allOk_of_succ (F : Nat → Res α) (n : Nat) (h : allOk F (n + 1) = true) :
    allOk F n = true := by
  rw [allOk_succ] at h
  exact (Bool.and_eq_true _ _ ▸ h).1

/-- Characterization of the iterator state: while no generator result has
been an error the flag is down and the position counts the calls; after an
error the flag is up forever. -/
theorem iterRunState_spec (F : Nat → Res α) (n : Nat) :
    (allOk F n = true → iterRunState F n = ⟨false, n⟩) ∧
    (allOk F n = false → (iterRunState F n).isEOI = true) := by
  induction n with
  | zero => exact ⟨fun _ => rfl, fun h => by simp [allOk] at h⟩
  | succ n ih =>
    constructor
    · intro h
      have hn := ih.1 (allOk_of_succ F n h)
      have hFn : resOk (F n) = true := by
        rw [allOk_succ] at h
        exact (Bool.and_eq_true _ _ ▸ h).2
      show (iterNext F (iterRunState F n)).1 = _
      rw [hn]
      cases hF : F n with
      | ok v => simp [iterNext, hF]
      | error e => rw [hF] at hFn; simp [resOk] at hFn
    · intro h
      show (iterNext F (iterRunState F n)).1.isEOI = true
      cases hall : allOk F n with
      | false =>
        have := ih.2 hall
        unfold iterNext
        rw [if_pos this]
        exact this
      | true =>
        have hn := ih.1 hall
        rw [allOk_succ, hall, Bool.true_and] at h
        rw [hn]
        cases hF : F n with
        | ok v => rw [hF] at h; simp [resOk] at h
        | error e => simp [iterNext, hF]

/-- The call-result sequence of the sticky iterator machine equals its
closed form `stickyBeh`. -/
theorem iterResult_eq_stickyBeh (F : Nat → Res α) (n : Nat) :
    iterResult F n = stickyBeh F n := by
  unfold iterResult stickyBeh
  cases hall : allOk F n with
  | true =>
    rw [(iterRunState_spec F n).1 hall]
    cases hF : F n with
    | ok v => simp [iterNext, hF]
    | error e => simp [iterNext, hF]
  | false =>
    have h := (iterRunState_spec F n).2 hall
    unfold iterNext
    rw [if_pos h]
    simp

/-- Behavior of an iterator in the class produced by `newIterator`: a list
of yielded values, a terminal signal surfaced once, then EOI forever. -/
structure IterBeh (α : Type) where
  vals : List α
  term : GoErr

/-- The call-result sequence of a behavior. -/
def IterBeh.seq (u : IterBeh α) (n : Nat) : Res α :=
  if h : n < u.vals.length then .ok (u.vals.get ⟨n, h⟩)
  else if n = u.vals.length then .error u.term
  else .error .eoi

/-- The finite prefix of upstream results a downstream generator consumes:
the yielded values followed by the first terminal signal. -/
def IterBeh.resList (u : IterBeh α) : List (Res α) :=
  u.vals.map Except.ok ++ [Except.error u.term]

/-- Generator whose successive call results are the entries of L, and EOI
once L is exhausted (every downstream generator in the source keeps
returning EOI once its upstream does). -/
def listSeq (L : List (Res α)) (n : Nat) : Res α :=
  L.getD n (.error .eoi)

theorem allOk_iff (G : Nat → Res α) (n : Nat) :
    allOk G n = true ↔ ∀ k, k < n → resOk (G k) = true := by
  simp [allOk, List.all_eq_true, List.mem_range]

theorem listSeq_ok (vs : List α) (t : GoErr) (rest : List (Res α)) {k : Nat}
    (hk : k < vs.length) :
    listSeq (vs.map Except.ok ++ Except.error t :: rest) k = .ok (vs.get ⟨k, hk⟩) := by
  unfold listSeq
  rw [List.getD_eq_getElem?_getD, List.getElem?_append_left (by simpa using hk),
    List.getElem?_map, List.getElem?_eq_getElem hk]
  rfl

theorem listSeq_term (vs : List α) (t : GoErr) (rest : List (Res α)) :
    listSeq (vs.map Except.ok ++ Except.error t :: rest) vs.length = .error t := by
  unfold listSeq
  rw [List.getD_eq_getElem?_getD, List.getElem?_append_right (by simp)]
  simp

theorem stickyBeh_listSeq (vs : List α) (t : GoErr) (rest : List (Res α)) (n : Nat) :
    stickyBeh (listSeq (vs.map Except.ok ++ Except.error t :: rest)) n
      = IterBeh.seq ⟨vs, t⟩ n := by
  unfold stickyBeh IterBeh.seq
  rcases lt_trichotomy n vs.length with hn | hn | hn
  · have hall : allOk (listSeq (vs.map Except.ok ++ Except.error t :: rest)) n = true := by
      rw [allOk_iff]
      intro k hk
      rw [listSeq_ok vs t rest (lt_trans hk hn)]
      rfl
    rw [if_pos hall, listSeq_ok vs t rest hn]
    simp [hn]
  · have hall : allOk (listSeq (vs.map Except.ok ++ Except.error t :: rest)) n = true := by
      rw [allOk_iff]
      intro k hk
      rw [listSeq_ok vs t rest (hn ▸ hk)]
      rfl
    rw [if_pos hall, hn, listSeq_term vs t rest]
    simp
  · have hall : allOk (listSeq (vs.map Except.ok ++ Except.error t :: rest)) n = false := by
      rcases hb : allOk (listSeq (vs.map Except.ok ++ Except.error t :: rest)) n with _ | _
      · rfl
      · exfalso
        have := (allOk_iff _ n).1 hb vs.length hn
        rw [listSeq_term vs t rest] at this
        simp [resOk] at this
    rw [if_neg (by simp [hall])]
    have h1 : ¬ n < vs.length := by omega
    have h2 : ¬ n = vs.length := by omega
    simp [h1, h2]

theorem allOk_mono (F : Nat → Res α) {m n : Nat} (h : m ≤ n)
    (hn : allOk F n = true) : allOk F m = true := by
  rw [allOk_iff] at hn ⊢
  intro k hk
  exact hn k (lt_of_lt_of_le hk h)

/-- Map executor generator closure (executor.go lines 27-42), as a function
of the successive upstream `Next` results it consumes: an upstream error is
returned as is; a value on which the Mapper errors is dropped and the
closure recurses onto the next upstream result; otherwise the mapped value
is yielded.  The Mapper is `Apply` as the executor sees it: a result or an
error. -/
def mapGen (f : α → Res β) : List (Res α) → List (Res β)
  | [] => []
  | .error e :: rest => .error e :: mapGen f rest
  | .ok x :: rest =>
    match f x with
    | .error _ => mapGen f rest
    | .ok v => .ok v :: mapGen f rest

/-- Behavior of the iterator returned by `mapExecutor.Execute` over an
upstream iterator with behavior u: the generator sequence is wrapped by
`NewIterator` into a sticky iterator. -/
def mapExecute (f : α → Res β) (u : IterBeh α) (n : Nat) : Res β :=
  stickyBeh (listSeq (mapGen f u.resList)) n

theorem mapGen_resList (f : α → Res β) (vs : List α) (t : GoErr) :
    mapGen f (vs.map Except.ok ++ [Except.error t])
      = (vs.filterMap fun x => (f x).toOption).map Except.ok ++ [Except.error t] := by
  induction vs with
  | nil => rfl
  | cons x vs ih =>
    cases hx : f x with
    | error e => simp [mapGen, hx, List.filterMap_cons, Except.toOption, ih]
    | ok v => simp [mapGen, hx, List.filterMap_cons, Except.toOption, ih]

/-- Filter executor generator closure (executor.go lines 61-80): an
upstream error is returned as is; a Filter error is returned (ending the
stream once wrapped in the sticky iterator); `false` skips and the closure
recurses; `true` yields the element unchanged. -/
def filterGen (f : α → Res Bool) : List (Res α) → List (Res α)
  | [] => []
  | .error e :: rest => .error e :: filterGen f rest
  | .ok x :: rest =>
    match f x with
    | .error e => .error e :: filterGen f rest
    | .ok b => if b then .ok x :: filterGen f rest else filterGen f rest

/-- Behavior of the iterator returned by `filterExecutor.Execute`. -/
def filterExecute (f : α → Res Bool) (u : IterBeh α) (n : Nat) : Res α :=
  stickyBeh (listSeq (filterGen f u.resList)) n

/-- Expected observable outcome of the filter stage on the upstream values:
the elements passing the predicate before its first error, paired with that
first error when there is one. -/
def filterPassed (f : α → Res Bool) : List α → List α × Option GoErr
  | [] => ([], none)
  | x :: rest =>
    match f x with
    | .error e => ([], some e)
    | .ok true => (x :: (filterPassed f rest).1, (filterPassed f rest).2)
    | .ok false => filterPassed f rest

theorem filterGen_resList (f : α → Res Bool) (vs : List α) (t : GoErr) :
    ∃ rest, filterGen f (vs.map Except.ok ++ [Except.error t])
      = (filterPassed f vs).1.map Except.ok
        ++ Except.error ((filterPassed f vs).2.getD t) :: rest := by
  induction vs with
  | nil => exact ⟨[], rfl⟩
  | cons x vs ih =>
    obtain ⟨r, hr⟩ := ih
    cases hx : f x with
    | error e =>
      exact ⟨filterGen f (vs.map Except.ok ++ [Except.error t]),
        by simp [filterGen, hx, filterPassed]⟩
    | ok b =>
      cases b
      · exact ⟨r, by simp [filterGen, hx, filterPassed, hr]⟩
      · exact ⟨r, by simp [filterGen, hx, filterPassed, hr]⟩

/-- C1: the Map executor yields, in order, f applied to exactly those
upstream elements on which the Mapper succeeds; erroring elements are
dropped with no error surfaced; the upstream terminal signal (EOI or a
non-EOI error) passes through unchanged; and for a Mapper that never
errors the output is the elementwise image of the input, in order and of
the same length. -/
theorem mapExecutor_correct (f : α → Res β) (g : α → β) (u : IterBeh α) (n : Nat) :
    mapExecute f u n
      = IterBeh.seq ⟨u.vals.filterMap fun x => (f x).toOption, u.term⟩ n
    ∧ mapExecute (fun x => Except.ok (g x)) u n
      = IterBeh.seq ⟨u.vals.map g, u.term⟩ n
    ∧ (u.vals.map g).length = u.vals.length := by
  refine ⟨?_, ?_, by simp⟩
  · unfold mapExecute IterBeh.resList
    rw [mapGen_resList]
    exact stickyBeh_listSeq _ _ [] n
  · unfold mapExecute IterBeh.resList
    rw [mapGen_resList]
    have hmap : (u.vals.filterMap fun x => (Except.ok (ε := GoErr) (g x)).toOption)
        = u.vals.map g := by
      simp only [Except.toOption]
      exact List.filterMap_eq_map_iff_forall_eq_some.mpr fun a _ => rfl
    rw [hmap]
    exact stickyBeh_listSeq _ _ [] n

/-- C2: the Filter executor yields, in order, exactly the upstream elements
on which the Filter returns true; false skips the element and pulling
continues; the first Filter error ends the stream surfacing that error (no
further elements); absent a Filter error the upstream terminal signal
passes through. -/
theorem filterExecutor_correct (f : α → Res Bool) (u : IterBeh α) (n : Nat) :
    filterExecute f u n
      = IterBeh.seq ⟨(filterPassed f u.vals).1,
          (filterPassed f u.vals).2.getD u.term⟩ n := by
  obtain ⟨r, hr⟩ := filterGen_resList f u.vals u.term
  unfold filterExecute IterBeh.resList
  rw [hr]
  exact stickyBeh_listSeq _ _ r n

/-- C3: sticky termination of the iterator state machine: once a `Next`
call has returned any error (EOI or not), every later call returns EOI;
hence a non-EOI error is surfaced at most once, at the call where it
occurs. -/
theorem iterator_sticky_termination (F : Nat → Res α) :
    (∀ m n, m < n → resOk (iterResult F m) = false →
      iterResult F n = Except.error GoErr.eoi)
    ∧ (∀ m n s t, iterResult F m = Except.error (GoErr.err s) →
        iterResult F n = Except.error (GoErr.err t) → m = n) := by
  have key : ∀ m n, m < n → resOk (iterResult F m) = false →
      iterResult F n = Except.error GoErr.eoi := by
    intro m n hmn he
    rw [iterResult_eq_stickyBeh] at he ⊢
    unfold stickyBeh at he ⊢
    rcases hb : allOk F n with _ | _
    · rw [if_neg (by simp [hb])]
    · exfalso
      have hm1 : allOk F (m + 1) = true := allOk_mono F hmn hb
      have hm : allOk F m = true := allOk_of_succ F m hm1
      rw [if_pos hm] at he
      rw [allOk_succ, hm, Bool.true_and] at hm1
      rw [hm1] at he
      exact absurd he (by simp)
  refine ⟨key, ?_⟩
  intro m n s t hm hn
  rcases lt_trichotomy m n with h | h | h
  · exfalso
    have := key m n h (by rw [hm]; rfl)
    rw [hn] at this
    simp at this
  · exact h
  · exfalso
    have := key n m h (by rw [hn]; rfl)
    rw [hm] at this
    simp at this

/-- Witness for the sticky-termination theorem at a concrete generator:
the generator always fails, the first call surfaces the failure, the
second call is EOI. -/
theorem iterator_sticky_termination_witness :
    iterResult (fun _ => (Except.error (GoErr.err "E") : Res Nat)) 1
      = Except.error GoErr.eoi :=
  (iterator_sticky_termination (fun _ => (Except.error (GoErr.err "E") : Res Nat))).1
    0 1 (by decide) (by rfl)

/-- Stage-id tagging of a terminal signal: EOI passes untouched, any other
error gets the node id prefixed (rendering of
`fmt.Errorf("%s %w", nid, err)`). -/
def tagErr (nid : String) : GoErr → GoErr
  | .eoi => .eoi
  | .err m => .err (nid ++ " " ++ m)

/-- One call of `StreamNodeIterator.Next` (node.go lines 70-79) as a
function of the wrapped iterator's result: EOI passes through, a non-EOI
error is re-tagged with the node id, values pass through. -/
def nodeNext (nid : String) (r : Res α) : Res α :=
  match r with
  | .error .eoi => .error .eoi
  | .error (.err m) => .error (.err (nid ++ " " ++ m))
  | .ok v => .ok v

/-- Call-result sequence of a `StreamNodeIterator` over an inner iterator
with call-result sequence B. -/
def nodeIterSeq (nid : String) (B : Nat → Res α) (n : Nat) : Res α :=
  nodeNext nid (B n)

/-- Call-result sequence after wrapping by a chain of stage nodes, applied
in pipeline order (head of the list is the innermost stage). -/
def chainSeq (ids : List String) (B : Nat → Res α) : Nat → Res α :=
  ids.foldl (fun acc nid => nodeIterSeq nid acc) B

theorem nodeNext_error (nid : String) (t : GoErr) :
    nodeNext nid (Except.error t : Res α) = Except.error (tagErr nid t) := by
  cases t <;> rfl

theorem nodeIterSeq_seq (nid : String) (u : IterBeh α) :
    nodeIterSeq nid (IterBeh.seq u) = IterBeh.seq ⟨u.vals, tagErr nid u.term⟩ := by
  funext n
  unfold nodeIterSeq IterBeh.seq
  by_cases h1 : n < u.vals.length
  · simp [h1, nodeNext]
  · by_cases h2 : n = u.vals.length
    · simp only [h1, h2]
      simp [nodeNext_error]
    · simp [h1, h2, nodeNext]

theorem chainSeq_seq (ids : List String) (u : IterBeh α) :
    chainSeq ids (IterBeh.seq u)
      = IterBeh.seq ⟨u.vals, ids.foldl (fun e i => tagErr i e) u.term⟩ := by
  induction ids generalizing u with
  | nil => rfl
  | cons i ids ih =>
    show chainSeq ids (nodeIterSeq i (IterBeh.seq u)) = _
    rw [nodeIterSeq_seq, ih ⟨u.vals, tagErr i u.term⟩]
    rfl

theorem tagErr_foldl_render (ids : List String) (c : String) :
    ids.foldl (fun e i => tagErr i e) (GoErr.err c)
      = GoErr.err (ids.reverse.foldr (fun i acc => i ++ " " ++ acc) c) := by
  induction ids generalizing c with
  | nil => rfl
  | cons i ids ih =>
    rw [List.foldl_cons]
    have hstep : tagErr i (GoErr.err c) = GoErr.err (i ++ " " ++ c) := rfl
    rw [hstep, ih (i ++ " " ++ c)]
    simp [List.foldr_append]

/-- C4: a stream node's iterator passes EOI untagged, passes values
through, re-tags every non-EOI error by prefixing the stage id rendered
as "id inner"; and a chain of stages accumulates the identifiers of every
later stage an error passes through, most-recent stage first, so that a
chain whose second stage fails with cause c and whose third stage is N3
renders "N3 N2 c". -/
theorem streamNode_tagging (nid n2 n3 : String) (ids : List String)
    (u : IterBeh α) (c m : String) (v : α) (n : Nat) :
    nodeNext nid (Except.error GoErr.eoi : Res α) = Except.error GoErr.eoi
    ∧ nodeNext nid (Except.ok v : Res α) = Except.ok v
    ∧ nodeNext nid (Except.error (GoErr.err m) : Res α)
        = Except.error (GoErr.err (nid ++ " " ++ m))
    ∧ nodeIterSeq nid (IterBeh.seq u) n = IterBeh.seq ⟨u.vals, tagErr nid u.term⟩ n
    ∧ chainSeq ids (IterBeh.seq u) n
        = IterBeh.seq ⟨u.vals, ids.foldl (fun e i => tagErr i e) u.term⟩ n
    ∧ ids.foldl (fun e i => tagErr i e) (GoErr.err c)
        = GoErr.err (ids.reverse.foldr (fun i acc => i ++ " " ++ acc) c)
    ∧ [n2, n3].foldl (fun e i => tagErr i e) (GoErr.err c)
        = GoErr.err (n3 ++ " " ++ (n2 ++ " " ++ c)) := by
  refine ⟨rfl, rfl, rfl, ?_, ?_, tagErr_foldl_render ids c, rfl⟩
  · rw [nodeIterSeq_seq]
  · rw [chainSeq_seq]

theorem allOk_stickyBeh (F : Nat → Res α) (n : Nat) :
    allOk (stickyBeh F) n = allOk F n := by
  induction n with
  | zero => rfl
  | succ n ih =>
    rw [allOk_succ, allOk_succ, ih]
    cases h : allOk F n with
    | false => simp
    | true =>
      unfold stickyBeh
      rw [if_pos h]

theorem stickyBeh_idem (F : Nat → Res α) (n : Nat) :
    stickyBeh (stickyBeh F) n = stickyBeh F n := by
  show (if allOk (stickyBeh F) n then stickyBeh F n else .error .eoi) = _
  rw [allOk_stickyBeh]
  unfold stickyBeh
  cases h : allOk F n <;> simp [h]

/-- Go values as seen by `NewIterator` (iterator.go): nil, opaque scalars,
tuples (structs land in the default branch of the kind switch like any
other scalar), slices and arrays, receivable channels (bidirectional or
receive-only, modelled by the values received before close), send-only
channels (whose contents cannot be received), maps (modelled by a fixed
enumeration of entries), generator functions, and iterators (modelled by
their `Next` call-result sequence). -/
inductive GoVal where
  | nilV
  | base (k : Nat)
  | tupleV (xs : List GoVal)
  | sliceV (xs : List GoVal)
  | chanV (xs : List GoVal)
  | sendChanV
  | mapV (kvs : List (GoVal × GoVal))
  | iterFuncV (F : Nat → Except GoErr GoVal)
  | iterV (F : Nat → Except GoErr GoVal)

/-- Error of iterator construction from an unsupported shape. -/
def errCannotCreateIterator : GoErr := .err "cannot create iterator"

/-- Generator built for a nil source: yields nothing. -/
def newNilIteratorFunc : Except GoErr (Nat → Res GoVal) :=
  .ok fun _ => .error .eoi

/-- Generator built for any non-special value: yields exactly the value,
then EOI (the closure flips its own flag after the first call). -/
def newOrphanIteratorFunc (v : GoVal) : Except GoErr (Nat → Res GoVal) :=
  .ok fun n => if n = 0 then .ok v else .error .eoi

/-- Generator for a slice or array source: the elements in index order,
then EOI; any other shape is rejected. -/
def newArrayOrSliceIteratorFunc (v : GoVal) : Except GoErr (Nat → Res GoVal) :=
  match v with
  | .sliceV xs =>
    .ok fun n => if h : n < xs.length then .ok (xs.get ⟨n, h⟩) else .error .eoi
  | _ => .error errCannotCreateIterator

/-- Generator for a channel source: the guard
`t.Kind() == reflect.Chan && t.ChanDir() != reflect.SendDir` accepts only
a receivable channel and yields the received values in order, then EOI on
close; a send-only channel, like any non-channel shape, is rejected with
`ErrCannotCreateIterator`. -/
def newChanIteratorFunc (v : GoVal) : Except GoErr (Nat → Res GoVal) :=
  match v with
  | .chanV xs =>
    .ok fun n => if h : n < xs.length then .ok (xs.get ⟨n, h⟩) else .error .eoi
  | _ => .error errCannotCreateIterator

/-- Generator for a map source: one Tuple (key, value) per entry, then
EOI; any other shape is rejected. -/
def newMapIteratorFunc (v : GoVal) : Except GoErr (Nat → Res GoVal) :=
  match v with
  | .mapV kvs =>
    .ok fun n =>
      if h : n < kvs.length then
        .ok (.tupleV [(kvs.get ⟨n, h⟩).1, (kvs.get ⟨n, h⟩).2])
      else .error .eoi
  | _ => .error errCannotCreateIterator

/-- Dispatch of `newIteratorFunc` (iterator.go lines 148-170): nil first,
then the type switch on generator functions and iterators, then the kind
switch on slices and arrays, channels and maps, with the orphan iterator
as the default.  The `reflect.Chan` case matches every channel, send-only
ones included; the direction check happens inside
`newChanIteratorFunc`. -/
def newIteratorFunc : GoVal → Except GoErr (Nat → Res GoVal)
  | .nilV => newNilIteratorFunc
  | .iterFuncV F => .ok F
  | .iterV F => .ok F
  | .sliceV xs => newArrayOrSliceIteratorFunc (.sliceV xs)
  | .chanV xs => newChanIteratorFunc (.chanV xs)
  | .sendChanV => newChanIteratorFunc .sendChanV
  | .mapV kvs => newMapIteratorFunc (.mapV kvs)
  | v => newOrphanIteratorFunc v

/-- `NewIterator` wraps the generator obtained from `newIteratorFunc` in a
fresh sticky iterator; this is the call-result sequence of the result. -/
def NewIteratorBeh (v : GoVal) : Except GoErr (Nat → Res GoVal) :=
  (newIteratorFunc v).map stickyBeh

theorem singleValueBeh (v : α) :
    stickyBeh (fun k => if k = 0 then Except.ok v else Except.error GoErr.eoi)
      = IterBeh.seq ⟨[v], GoErr.eoi⟩ := by
  have h : (fun k => if k = 0 then Except.ok v else Except.error GoErr.eoi)
      = listSeq ([v].map Except.ok ++ Except.error GoErr.eoi :: []) := by
    funext k
    match k with
    | 0 => rfl
    | 1 => rfl
    | (j + 2) => simp [listSeq]
  rw [h]
  funext n
  exact stickyBeh_listSeq [v] GoErr.eoi [] n

/-- C9: giving `NewIterator` an existing Iterator succeeds, and the pull
behavior of the result is observationally identical to the original: the
source wraps `v.Next` in a fresh sticky iterator, and wrapping a sticky
call-result sequence again is the identity. -/
theorem NewIterator_roundtrip (G : Nat → Res GoVal) :
    newIteratorFunc (GoVal.iterV (stickyBeh G)) = Except.ok (stickyBeh G)
    ∧ NewIteratorBeh (GoVal.iterV (stickyBeh G)) = Except.ok (stickyBeh G)
    ∧ ∀ F : Nat → Res GoVal, ∀ n, stickyBeh (stickyBeh F) n = stickyBeh F n := by
  refine ⟨rfl, ?_, fun F n => stickyBeh_idem F n⟩
  show Except.ok (stickyBeh (stickyBeh G)) = Except.ok (stickyBeh G)
  exact congrArg Except.ok (funext fun n => stickyBeh_idem G n)

/-- Discriminates the one value shape `newIteratorFunc` rejects: a
send-only channel, whose kind is `reflect.Chan` but whose direction fails
the guard of the channel iterator constructor. -/
def isSendOnlyChan : GoVal → Bool
  | .sendChanV => true
  | _ => false

/-- C10 counterexample: `NewIterator` is not total — on a send-only
channel the kind switch dispatches to the channel constructor, whose
direction guard rejects it, so construction fails with
`ErrCannotCreateIterator` instead of falling through to the orphan
iterator. -/
theorem NewIterator_total_counterexample :
    newIteratorFunc GoVal.sendChanV = Except.error errCannotCreateIterator
    ∧ resOk (newIteratorFunc GoVal.sendChanV) = false
    ∧ NewIteratorBeh GoVal.sendChanV = Except.error errCannotCreateIterator :=
  ⟨rfl, rfl, rfl⟩

/-- C10 amended: `NewIterator` succeeds on every value except a send-only
channel — the `ErrCannotCreateIterator` branch is reachable through
`NewIterator` exactly for a send-only channel — and every value that
matches no special shape falls through to the orphan iterator, whose
iterator yields exactly that value and then EOI. -/
theorem NewIterator_total_amended (v : GoVal) (k : Nat) (xs : List GoVal) :
    resOk (newIteratorFunc v) = !(isSendOnlyChan v)
    ∧ newIteratorFunc (GoVal.base k) = newOrphanIteratorFunc (GoVal.base k)
    ∧ newIteratorFunc (GoVal.tupleV xs) = newOrphanIteratorFunc (GoVal.tupleV xs)
    ∧ NewIteratorBeh (GoVal.base k)
        = Except.ok (IterBeh.seq ⟨[GoVal.base k], GoErr.eoi⟩)
    ∧ NewIteratorBeh (GoVal.tupleV xs)
        = Except.ok (IterBeh.seq ⟨[GoVal.tupleV xs], GoErr.eoi⟩) := by
  refine ⟨?_, rfl, rfl, ?_, ?_⟩
  · cases v <;> rfl
  · show Except.ok (stickyBeh _) = _
    rw [singleValueBeh]
  · show Except.ok (stickyBeh _) = _
    rw [singleValueBeh]

/-- Classification of an Aggregator (function.go): Right is (A,B)→B, Left
is (B,A)→B, Perfect is (A,A)→A, Unknown is anything else (rejected by
`NewAggregator`). -/
inductive AggregatorType where
  | unknown | right | left | perfect
deriving DecidableEq, Repr

/-- Requested or inferred fold direction of the aggregate executor
(executor.go): R is foldr, L is foldl, Unknown means not requested. -/
inductive AggregateExecutorType where
  | unknown | r | l
deriving DecidableEq, Repr

/-- Compatibility check of executor.go: foldr accepts a Right or Perfect
aggregator, foldl accepts a Left or Perfect aggregator. -/
def isValidAggregateExecutorType : AggregateExecutorType → AggregatorType → Bool
  | .r, t => t == .right || t == .perfect
  | .l, t => t == .left || t == .perfect
  | .unknown, _ => false

/-- The data the aggregate executor construction decides on: the
Aggregator classification and the explicitly requested direction. -/
structure AggregateExecutorCfg where
  ftype : AggregatorType
  opt : AggregateExecutorType
deriving DecidableEq, Repr

/-- Sentintel returned when an explicitly requested direction is
incompatible with the aggregator. -/
def ErrInvalidAggregateExecutor : GoErr := .err "invalid aggregate executor"

/-- `NewAggregateExecutor` (executor.go): fails if and only if a direction
was explicitly requested and the compatibility check rejects it. -/
def NewAggregateExecutor (ft : AggregatorType) (opt : AggregateExecutorType) :
    Except GoErr AggregateExecutorCfg :=
  if opt != AggregateExecutorType.unknown && !(isValidAggregateExecutorType opt ft)
  then .error ErrInvalidAggregateExecutor
  else .ok ⟨ft, opt⟩

/-- Direction used at execution (`aggregateExecutor.executorType`): the
explicit request when present, else inferred from the classification
(Right infers foldr; Left and Perfect infer foldl). -/
def executorType (c : AggregateExecutorCfg) : AggregateExecutorType :=
  if c.opt != AggregateExecutorType.unknown then c.opt
  else
    match c.ftype with
    | .right => .r
    | .left => .l
    | .perfect => .l
    | .unknown => .unknown

/-- C5: construction of the aggregate executor fails with the invalid
aggregate executor error exactly when an explicitly requested direction is
incompatible with the aggregator's classification (foldr needs Right or
Perfect, foldl needs Left or Perfect); with no explicit request, Right
infers foldr and Left or Perfect infer foldl. -/
theorem aggregateExecutor_construction (ft : AggregatorType) (opt : AggregateExecutorType) :
    (NewAggregateExecutor ft opt = Except.error ErrInvalidAggregateExecutor
      ↔ (opt = AggregateExecutorType.r ∧ ¬(ft = AggregatorType.right ∨ ft = AggregatorType.perfect))
        ∨ (opt = AggregateExecutorType.l ∧ ¬(ft = AggregatorType.left ∨ ft = AggregatorType.perfect)))
    ∧ executorType ⟨AggregatorType.right, AggregateExecutorType.unknown⟩ = AggregateExecutorType.r
    ∧ executorType ⟨AggregatorType.left, AggregateExecutorType.unknown⟩ = AggregateExecutorType.l
    ∧ executorType ⟨AggregatorType.perfect, AggregateExecutorType.unknown⟩ = AggregateExecutorType.l := by
  refine ⟨?_, rfl, rfl, rfl⟩
  cases ft <;> cases opt <;> simp [NewAggregateExecutor, isValidAggregateExecutorType]

/-- `aggregateExecutor.foldr` (executor.go): pull one upstream result; EOI
returns the accumulator, an error is surfaced, a value is combined with
the recursively folded tail via `Apply(x, r)`.  The source pulls until it
sees a terminal signal, so the embedding consumes the upstream result
prefix ending at the first terminal; the nil case is unreachable on such
input. -/
def foldrGo (f : α → β → Res β) (acc : β) : List (Res α) → Res β
  | [] => .ok acc
  | .error .eoi :: _ => .ok acc
  | .error e :: _ => .error e
  | .ok x :: rest =>
    match foldrGo f acc rest with
    | .error e => .error e
    | .ok r => f x r

/-- `aggregateExecutor.foldl` (executor.go): pull one upstream result; EOI
returns the accumulator, an error is surfaced, a value is combined into
the accumulator via `Apply(acc, x)` before folding the tail. -/
def foldlGo (f : β → α → Res β) (acc : β) : List (Res α) → Res β
  | [] => .ok acc
  | .error .eoi :: _ => .ok acc
  | .error e :: _ => .error e
  | .ok x :: rest =>
    match f acc x with
    | .error e => .error e
    | .ok r => foldlGo f r rest

/-- Generator closure of `aggregateExecutor.Execute`: the first call
computes the fold, every later call yields EOI. -/
def aggGenSeq (r : Res β) (n : Nat) : Res β :=
  if n = 0 then r else .error .eoi

/-- Behavior of the iterator returned by the aggregate executor in foldr
mode over upstream behavior u. -/
def aggregateExecuteR (f : α → β → Res β) (iv : β) (u : IterBeh α) (n : Nat) : Res β :=
  stickyBeh (aggGenSeq (foldrGo f iv u.resList)) n

/-- Behavior of the iterator returned by the aggregate executor in foldl
mode over upstream behavior u. -/
def aggregateExecuteL (f : β → α → Res β) (iv : β) (u : IterBeh α) (n : Nat) : Res β :=
  stickyBeh (aggGenSeq (foldlGo f iv u.resList)) n

theorem aggGenSeq_beh (r : Res β) (n : Nat) :
    stickyBeh (aggGenSeq r) n
      = (match r with
         | .ok v => IterBeh.seq ⟨[v], GoErr.eoi⟩ n
         | .error e => IterBeh.seq ⟨[], e⟩ n) := by
  cases r with
  | ok v =>
    have h : aggGenSeq (Except.ok v : Res β)
        = fun k => if k = 0 then Except.ok v else Except.error GoErr.eoi := rfl
    rw [h, singleValueBeh]
  | error e =>
    have h : aggGenSeq (Except.error e : Res β)
        = listSeq (([] : List β).map Except.ok ++ Except.error e :: []) := by
      funext k
      match k with
      | 0 => rfl
      | (j + 1) => simp [aggGenSeq, listSeq]
    rw [h]
    exact stickyBeh_listSeq [] e [] n

theorem foldrGo_pure (g : α → β → β) (iv : β) (vs : List α) :
    foldrGo (fun x r => Except.ok (g x r)) iv (vs.map Except.ok ++ [Except.error GoErr.eoi])
      = Except.ok (vs.foldr g iv) := by
  induction vs with
  | nil => rfl
  | cons x vs ih => simp [foldrGo, ih]

theorem foldlGo_pure (g : β → α → β) (iv : β) (vs : List α) :
    foldlGo (fun acc x => Except.ok (g acc x)) iv (vs.map Except.ok ++ [Except.error GoErr.eoi])
      = Except.ok (vs.foldl g iv) := by
  induction vs generalizing iv with
  | nil => rfl
  | cons x vs ih => simp [foldlGo, ih]

theorem foldrGo_upstream_error (g : α → β → β) (iv : β) (vs : List α) (m : String) :
    foldrGo (fun x r => Except.ok (g x r)) iv (vs.map Except.ok ++ [Except.error (GoErr.err m)])
      = Except.error (GoErr.err m) := by
  induction vs with
  | nil => rfl
  | cons x vs ih => simp [foldrGo, ih]

theorem foldlGo_upstream_error (g : β → α → β) (iv : β) (vs : List α) (m : String) :
    foldlGo (fun acc x => Except.ok (g acc x)) iv (vs.map Except.ok ++ [Except.error (GoErr.err m)])
      = Except.error (GoErr.err m) := by
  induction vs generalizing iv with
  | nil => rfl
  | cons x vs ih => simp [foldlGo, ih]

/-- C6: for an error-free Aggregator the aggregate iterator yields exactly
one value then EOI, the right fold of the input in foldr mode and the left
fold in foldl mode; an upstream error surfaces as the aggregate's error
with no value produced; and in general the single generator call yields
the fold result when it succeeds and its error, with no value, when it
fails. -/
theorem aggregateExecutor_fold (gr : α → β → β) (gl : β → α → β)
    (f : α → β → Res β) (fl : β → α → Res β)
    (iv : β) (vs : List α) (u : IterBeh α) (m : String) (n : Nat) :
    aggregateExecuteR (fun x r => Except.ok (gr x r)) iv ⟨vs, GoErr.eoi⟩ n
      = IterBeh.seq ⟨[vs.foldr gr iv], GoErr.eoi⟩ n
    ∧ aggregateExecuteL (fun acc x => Except.ok (gl acc x)) iv ⟨vs, GoErr.eoi⟩ n
      = IterBeh.seq ⟨[vs.foldl gl iv], GoErr.eoi⟩ n
    ∧ aggregateExecuteR (fun x r => Except.ok (gr x r)) iv ⟨vs, GoErr.err m⟩ n
      = IterBeh.seq ⟨[], GoErr.err m⟩ n
    ∧ aggregateExecuteL (fun acc x => Except.ok (gl acc x)) iv ⟨vs, GoErr.err m⟩ n
      = IterBeh.seq ⟨[], GoErr.err m⟩ n
    ∧ aggregateExecuteR f iv u n
      = (match foldrGo f iv u.resList with
         | .ok v => IterBeh.seq ⟨[v], GoErr.eoi⟩ n
         | .error e => IterBeh.seq ⟨[], e⟩ n)
    ∧ aggregateExecuteL fl iv u n
      = (match foldlGo fl iv u.resList with
         | .ok v => IterBeh.seq ⟨[v], GoErr.eoi⟩ n
         | .error e => IterBeh.seq ⟨[], e⟩ n) := by
  refine ⟨?_, ?_, ?_, ?_, aggGenSeq_beh _ n, aggGenSeq_beh _ n⟩
  · unfold aggregateExecuteR
    rw [show (IterBeh.resList ⟨vs, GoErr.eoi⟩) = vs.map Except.ok ++ [Except.error GoErr.eoi] from rfl,
      foldrGo_pure]
    exact aggGenSeq_beh _ n
  · unfold aggregateExecuteL
    rw [show (IterBeh.resList ⟨vs, GoErr.eoi⟩) = vs.map Except.ok ++ [Except.error GoErr.eoi] from rfl,
      foldlGo_pure]
    exact aggGenSeq_beh _ n
  · unfold aggregateExecuteR
    rw [show (IterBeh.resList ⟨vs, GoErr.err m⟩) = vs.map Except.ok ++ [Except.error (GoErr.err m)] from rfl,
      foldrGo_upstream_error]
    exact aggGenSeq_beh _ n
  · unfold aggregateExecuteL
    rw [show (IterBeh.resList ⟨vs, GoErr.err m⟩) = vs.map Except.ok ++ [Except.error (GoErr.err m)] from rfl,
      foldlGo_upstream_error]
    exact aggGenSeq_beh _ n

/-- Single step of the iterative left fold: the loop state is either the
running accumulator or the finished result (early exit on a terminal). -/
def foldlStep (f : β → α → Res β) (st : Except (Res β) β) (r : Res α) : Except (Res β) β :=
  match st with
  | .error fin => .error fin
  | .ok acc =>
    match r with
    | .error .eoi => .error (.ok acc)
    | .error e => .error (.error e)
    | .ok x =>
      match f acc x with
      | .error e => .error (.error e)
      | .ok r2 => .ok r2

/-- Iterative (single-pass, accumulator-only) left fold: one `List.foldl`
loop over the upstream results with constant-size state. -/
def foldlIter (f : β → α → Res β) (acc : β) (l : List (Res α)) : Res β :=
  match l.foldl (foldlStep f) (.ok acc) with
  | .ok a => .ok a
  | .error fin => fin

theorem foldlStep_finished (f : β → α → Res β) (fin : Res β) (l : List (Res α)) :
    l.foldl (foldlStep f) (.error fin) = .error fin := by
  induction l with
  | nil => rfl
  | cons r l ih => simp [List.foldl_cons, foldlStep, ih]

/-- C7: the fold-left evaluation is iterative: the embedded `foldl` of the
aggregate executor equals a single loop (`List.foldl`) over the upstream
results carrying only a constant-size accumulator state, so its evaluation
needs no recursion depth growing with the sequence length. -/
theorem foldl_iterative (f : β → α → Res β) (acc : β) (l : List (Res α)) :
    foldlGo f acc l = foldlIter f acc l := by
  induction l generalizing acc with
  | nil => rfl
  | cons r l ih =>
    cases r with
    | error e =>
      cases e with
      | eoi =>
        show foldlGo f acc (Except.error GoErr.eoi :: l) = _
        unfold foldlIter
        rw [List.foldl_cons]
        show Except.ok acc = _
        rw [show foldlStep f (Except.ok acc) (Except.error GoErr.eoi) = Except.error (Except.ok acc) from rfl,
          foldlStep_finished]
      | err m =>
        show Except.error (GoErr.err m) = _
        unfold foldlIter
        rw [List.foldl_cons]
        rw [show foldlStep f (Except.ok acc) (Except.error (GoErr.err m)) = Except.error (Except.error (GoErr.err m)) from rfl,
          foldlStep_finished]
    | ok x =>
      cases hfx : f acc x with
      | error e =>
        show foldlGo f acc (Except.ok x :: l) = _
        unfold foldlIter
        rw [List.foldl_cons]
        rw [show foldlStep f (Except.ok acc) (Except.ok x) = Except.error (Except.error e) from by simp [foldlStep, hfx],
          foldlStep_finished]
        simp [foldlGo, hfx]
      | ok r2 =>
        show foldlGo f acc (Except.ok x :: l) = _
        unfold foldlIter
        rw [List.foldl_cons]
        rw [show foldlStep f (Except.ok acc) (Except.ok x) = Except.ok r2 from by simp [foldlStep, hfx]]
        rw [show foldlGo f acc (Except.ok x :: l) = foldlGo f r2 l from by simp [foldlGo, hfx]]
        exact ih r2

/-- Outcome of running a step of an adapter body in the host runtime: a
normal return, or a runtime fault (a Go panic) carrying its rendered
value. -/
inductive Outcome (γ : Type) where
  | ret (v : γ)
  | fault (msg : String)

/-- The apply error sentinel. -/
def ErrApply : GoErr := .err "apply error"

/-- The deferred recover block shared by every adapter Apply
(function.go, cfunction.go): a normal return passes through, a fault is
converted into the apply error sentinel wrapping the fault's rendering
(`fmt.Errorf("%w %s", ErrApply, err)`), so no fault leaves Apply. -/
def recoverApply (body : Outcome (Res γ)) : Res γ :=
  match body with
  | .ret r => r
  | .fault m => .error (.err ("apply error " ++ m))

/-- `mapper.Apply` (function.go): inside the recover block, coerce the
argument (which may fail with an error or fault), then invoke the user
function (which may fault); an error from either step is returned. -/
def mapperApply (conv : α → Outcome (Res γ)) (f : γ → Outcome (Res β)) (v : α) : Res β :=
  recoverApply
    (match conv v with
     | .fault m => .fault m
     | .ret (.error e) => .ret (.error e)
     | .ret (.ok av) => f av)

/-- `filter.Apply` (function.go): same shape as the mapper with a boolean
result, `false` accompanying any error. -/
def filterApply (conv : α → Outcome (Res γ)) (f : γ → Outcome (Res Bool)) (v : α) : Res Bool :=
  recoverApply
    (match conv v with
     | .fault m => .fault m
     | .ret (.error e) => .ret (.error e)
     | .ret (.ok av) => f av)

/-- `aggregator.Apply` (function.go): both arguments are independently
coerced inside the recover block before the single invocation. -/
def aggregatorApply (convx convy : α → Outcome (Res γ))
    (f : γ → γ → Outcome (Res β)) (x y : α) : Res β :=
  recoverApply
    (match convx x with
     | .fault m => .fault m
     | .ret (.error e) => .ret (.error e)
     | .ret (.ok vx) =>
       match convy y with
       | .fault m => .fault m
       | .ret (.error e) => .ret (.error e)
       | .ret (.ok vy) => f vx vy)

/-- `comparator.Apply` (function.go): two coercions, boolean result. -/
def comparatorApply (convx convy : α → Outcome (Res γ))
    (f : γ → γ → Outcome (Res Bool)) (x y : α) : Res Bool :=
  recoverApply
    (match convx x with
     | .fault m => .fault m
     | .ret (.error e) => .ret (.error e)
     | .ret (.ok vx) =>
       match convy y with
       | .fault m => .fault m
       | .ret (.error e) => .ret (.error e)
       | .ret (.ok vy) => f vx vy)

/-- `consumer.Apply` (function.go): one coercion, no produced value. -/
def consumerApply (conv : α → Outcome (Res γ)) (f : γ → Outcome (Res Unit)) (v : α) : Res Unit :=
  recoverApply
    (match conv v with
     | .fault m => .fault m
     | .ret (.error e) => .ret (.error e)
     | .ret (.ok av) => f av)

/-- The per-position coercion loop of the Tuple adapters (cfunction.go):
each tuple element is coerced to the corresponding parameter type; the
first error or fault stops the loop. -/
def tupleConvArgs (conv : Nat → α → Outcome (Res γ)) : Nat → List α → Outcome (Res (List γ))
  | _, [] => .ret (.ok [])
  | i, x :: rest =>
    match conv i x with
    | .fault m => .fault m
    | .ret (.error e) => .ret (.error e)
    | .ret (.ok vx) =>
      match tupleConvArgs conv (i + 1) rest with
      | .fault m => .fault m
      | .ret (.error e) => .ret (.error e)
      | .ret (.ok vrest) => .ret (.ok (vx :: vrest))

/-- `tupleMapper.Apply` (cfunction.go): inside the recover block, a
non-Tuple argument or a size mismatch is the apply error; the elements are
coerced positionally and the user function is invoked once, flat. -/
def tupleMapperApply (arity : Nat) (conv : Nat → α → Outcome (Res γ))
    (f : List γ → Outcome (Res β)) (v : Option (List α)) : Res β :=
  recoverApply
    (match v with
     | none => .ret (.error ErrApply)
     | some xs =>
       if xs.length != arity then .ret (.error ErrApply)
       else
         match tupleConvArgs conv 0 xs with
         | .fault m => .fault m
         | .ret (.error e) => .ret (.error e)
         | .ret (.ok args) => f args)

/-- `tupleFilter.Apply` (cfunction.go): as the tuple mapper with a boolean
result. -/
def tupleFilterApply (arity : Nat) (conv : Nat → α → Outcome (Res γ))
    (f : List γ → Outcome (Res Bool)) (v : Option (List α)) : Res Bool :=
  recoverApply
    (match v with
     | none => .ret (.error ErrApply)
     | some xs =>
       if xs.length != arity then .ret (.error ErrApply)
       else
         match tupleConvArgs conv 0 xs with
         | .fault m => .fault m
         | .ret (.error e) => .ret (.error e)
         | .ret (.ok args) => f args)

/-- `tupleConsumer.Apply` (cfunction.go): as the tuple mapper with no
produced value. -/
def tupleConsumerApply (arity : Nat) (conv : Nat → α → Outcome (Res γ))
    (f : List γ → Outcome (Res Unit)) (v : Option (List α)) : Res Unit :=
  recoverApply
    (match v with
     | none => .ret (.error ErrApply)
     | some xs =>
       if xs.length != arity then .ret (.error ErrApply)
       else
         match tupleConvArgs conv 0 xs with
         | .fault m => .fault m
         | .ret (.error e) => .ret (.error e)
         | .ret (.ok args) => f args)

/-- Mirror of the coercion loop for coercions that always succeed. -/
def convArgsPure (c : Nat → α → γ) : Nat → List α → List γ
  | _, [] => []
  | i, x :: rest => c i x :: convArgsPure c (i + 1) rest

theorem tupleConvArgs_pure (c : Nat → α → γ) (i : Nat) (xs : List α) :
    tupleConvArgs (fun j y => Outcome.ret (Except.ok (c j y))) i xs
      = Outcome.ret (Except.ok (convArgsPure c i xs)) := by
  induction xs generalizing i with
  | nil => rfl
  | cons x xs ih => simp [tupleConvArgs, convArgsPure, ih]

/-- C8: for every adapter, a runtime fault raised while coercing arguments
or while invoking the user function during Apply is caught and returned as
an error wrapping the apply error sentinel (rendered "apply error <fault>"),
never propagated out of Apply (whose result type is a plain result). -/
theorem apply_panic_containment (m : String) (v x y : α) (c : α → γ)
    (ci : Nat → α → γ) (f : γ → Outcome (Res β)) (fb : γ → Outcome (Res Bool))
    (fu : γ → Outcome (Res Unit)) (g2 : γ → γ → Outcome (Res β))
    (g2b : γ → γ → Outcome (Res Bool)) (ft : List γ → Outcome (Res β))
    (ftb : List γ → Outcome (Res Bool)) (ftu : List γ → Outcome (Res Unit))
    (xs : List α) :
    mapperApply (fun _ => Outcome.fault m) f v
        = Except.error (GoErr.err ("apply error " ++ m))
    ∧ mapperApply (fun z => Outcome.ret (Except.ok (c z)))
        (fun _ => (Outcome.fault m : Outcome (Res β))) v
        = Except.error (GoErr.err ("apply error " ++ m))
    ∧ filterApply (fun _ => Outcome.fault m) fb v
        = Except.error (GoErr.err ("apply error " ++ m))
    ∧ filterApply (fun z => Outcome.ret (Except.ok (c z)))
        (fun _ => (Outcome.fault m : Outcome (Res Bool))) v
        = Except.error (GoErr.err ("apply error " ++ m))
    ∧ aggregatorApply (fun _ => Outcome.fault m) (fun z => Outcome.ret (Except.ok (c z))) g2 x y
        = Except.error (GoErr.err ("apply error " ++ m))
    ∧ aggregatorApply (fun z => Outcome.ret (Except.ok (c z))) (fun _ => Outcome.fault m) g2 x y
        = Except.error (GoErr.err ("apply error " ++ m))
    ∧ aggregatorApply (fun z => Outcome.ret (Except.ok (c z)))
        (fun z => Outcome.ret (Except.ok (c z)))
        (fun _ _ => (Outcome.fault m : Outcome (Res β))) x y
        = Except.error (GoErr.err ("apply error " ++ m))
    ∧ comparatorApply (fun _ => Outcome.fault m) (fun z => Outcome.ret (Except.ok (c z))) g2b x y
        = Except.error (GoErr.err ("apply error " ++ m))
    ∧ comparatorApply (fun z => Outcome.ret (Except.ok (c z))) (fun _ => Outcome.fault m) g2b x y
        = Except.error (GoErr.err ("apply error " ++ m))
    ∧ comparatorApply (fun z => Outcome.ret (Except.ok (c z)))
        (fun z => Outcome.ret (Except.ok (c z)))
        (fun _ _ => (Outcome.fault m : Outcome (Res Bool))) x y
        = Except.error (GoErr.err ("apply error " ++ m))
    ∧ consumerApply (fun _ => Outcome.fault m) fu v
        = Except.error (GoErr.err ("apply error " ++ m))
    ∧ consumerApply (fun z => Outcome.ret (Except.ok (c z)))
        (fun _ => (Outcome.fault m : Outcome (Res Unit))) v
        = Except.error (GoErr.err ("apply error " ++ m))
    ∧ tupleMapperApply (xs.length + 1) (fun _ _ => Outcome.fault m) ft (some (x :: xs))
        = Except.error (GoErr.err ("apply error " ++ m))
    ∧ tupleMapperApply xs.length (fun j z => Outcome.ret (Except.ok (ci j z)))
        (fun _ => (Outcome.fault m : Outcome (Res β))) (some xs)
        = Except.error (GoErr.err ("apply error " ++ m))
    ∧ tupleFilterApply (xs.length + 1) (fun _ _ => Outcome.fault m) ftb (some (x :: xs))
        = Except.error (GoErr.err ("apply error " ++ m))
    ∧ tupleFilterApply xs.length (fun j z => Outcome.ret (Except.ok (ci j z)))
        (fun _ => (Outcome.fault m : Outcome (Res Bool))) (some xs)
        = Except.error (GoErr.err ("apply error " ++ m))
    ∧ tupleConsumerApply (xs.length + 1) (fun _ _ => Outcome.fault m) ftu (some (x :: xs))
        = Except.error (GoErr.err ("apply error " ++ m))
    ∧ tupleConsumerApply xs.length (fun j z => Outcome.ret (Except.ok (ci j z)))
        (fun _ => (Outcome.fault m : Outcome (Res Unit))) (some xs)
        = Except.error (GoErr.err ("apply error " ++ m)) := by
  refine ⟨rfl, rfl, rfl, rfl, rfl, rfl, rfl, rfl, rfl, rfl, rfl, rfl, ?_, ?_, ?_, ?_, ?_, ?_⟩
  all_goals
    simp [tupleMapperApply, tupleFilterApply, tupleConsumerApply, tupleConvArgs,
      tupleConvArgs_pure, recoverApply]

end Circle
